import Mathlib

/-!
Shallow embedding of `src/radio/src/lib.rs` (TCPIntegration radio core).

Machine integers (`u8`, `usize`, `i32`) are modelled as `Nat`/`Int`; the
places where the source performs a cast or a wrapping operation carry an
explicit `% 256` or `Int` coercion.  The mpsc channel attached to a
`ByteAccumulator` is modelled by a `channelOpen` flag plus the list `sent`
of frames successfully sent so far; `send` fails exactly when the channel
is closed, and a failed Rust `?`
propagation is modelled by returning the mutated state together with
`false` (the mutations performed before the failing send persist, the
statements after it are skipped, exactly as in the source).

The `f32` envelope values are modelled as `ℚ`: none of the verified
properties depends on rounding, only on the order of pushes, sums, window
contents and threshold comparisons.
-/

set_option maxRecDepth 8192

namespace Radio

/-- State of `ByteAccumulator` (lib.rs lines 32-49) together with the model
of its outgoing mpsc channel. -/
structure ByteAccumulator where
  data_len : Nat
  accum : List Nat
  current_byte : Nat
  current_byte_idx : Nat
  /-- frames successfully sent on the channel, oldest first -/
  sent : List (List Nat)
  /-- whether the receiving end of the channel is still alive -/
  channelOpen : Bool
deriving Repr, DecidableEq

/-- Rust `ByteAccumulator::new` (lib.rs lines 41-49). -/
def ByteAccumulator.new (op : Bool) : ByteAccumulator :=
  { data_len := 0, accum := [], current_byte := 0, current_byte_idx := 0,
    sent := [], channelOpen := op }

/-- Rust `ByteAccumulator::accumulate_byte` (lib.rs lines 65-81).  The `Bool`
component is `true` for `Ok(())` and `false` for the `Err` produced by a
failing `channel.send`; on failure the pushed byte stays in `accum` and
`data_len` keeps its value because the Rust `?` returns before the
`clear`/reset statements run. -/
def ByteAccumulator.accumulate_byte (s : ByteAccumulator) (byte : Nat) :
    ByteAccumulator × Bool :=
  if s.data_len = 0 then
    ({ s with data_len := byte >>> 1 }, true)
  else
    let s1 := { s with accum := s.accum ++ [byte] }
    if s1.accum.length = s1.data_len then
      if s1.channelOpen then
        ({ s1 with sent := s1.sent ++ [s1.accum], accum := [], data_len := 0 }, true)
      else
        (s1, false)
    else
      (s1, true)

/-- Rust `ByteAccumulator::accumulate_bit` (lib.rs lines 51-63).  When the
partial byte already holds 8 bits it is first flushed through
`accumulate_byte`; if that flush fails the `?` returns early and the
incoming bit is never placed. -/
def ByteAccumulator.accumulate_bit (s : ByteAccumulator) (bit : Bool) :
    ByteAccumulator × Bool :=
  let step : ByteAccumulator × Bool :=
    if s.current_byte_idx = 8 then
      match s.accumulate_byte s.current_byte with
      | (s1, true) => ({ s1 with current_byte_idx := 0, current_byte := 0 }, true)
      | (s1, false) => (s1, false)
    else
      (s, true)
  match step with
  | (s1, true) =>
      ({ s1 with
          current_byte := s1.current_byte ||| ((cond bit 1 0) <<< s1.current_byte_idx),
          current_byte_idx := s1.current_byte_idx + 1 }, true)
  | (s1, false) => (s1, false)

/-- Feed a list of bits through `accumulate_bit`, stopping at the first
failure (in the decode job the first failure panics the worker via
`unwrap`, so no later bit is processed). -/
def feedBits (s : ByteAccumulator) : List Bool → ByteAccumulator × Bool
  | [] => (s, true)
  | b :: rest =>
    match s.accumulate_bit b with
    | (s1, true) => feedBits s1 rest
    | (s1, false) => (s1, false)

/-- Feed a list of bytes through `accumulate_byte`, stopping at the first
failure. -/
def feedBytes (s : ByteAccumulator) : List Nat → ByteAccumulator × Bool
  | [] => (s, true)
  | b :: rest =>
    match s.accumulate_byte b with
    | (s1, true) => feedBytes s1 rest
    | (s1, false) => (s1, false)

/-- The 8 bits of a byte, least-significant first — the bit order used both
by the transmit loop (`val >> shift & 1`, lib.rs line 222) and by the
spec's wire format. -/
def byteBits (b : Nat) : List Bool :=
  (List.range 8).map fun i => b.testBit i

/-- All bits of a byte sequence, each byte least-significant-bit first. -/
def bytesToBits (bs : List Nat) : List Bool :=
  bs.foldr (fun b acc => byteBits b ++ acc) []

/-! ### Pulse-gap decoding and the edge scan (lib.rs lines 155-179) -/

/-- The inner `while hold > 0` loop of the edge scan (lib.rs lines
166-170): emit a `false` bit and subtract 3300 while `hold` is positive.
`fuel` is an upper bound on the iteration count; since every iteration
decreases `hold` by 3300 ≥ 1, `hold.toNat` iterations always suffice. -/
def pulseFalseBitsAux : Nat → Int → List Bool
  | 0, _ => []
  | fuel + 1, hold =>
    if 0 < hold then false :: pulseFalseBitsAux fuel (hold - 3300) else []

/-- The `false` bits emitted for a given starting `hold` value. -/
def pulseFalseBits (hold : Int) : List Bool :=
  pulseFalseBitsAux hold.toNat hold

/-- The bits emitted for one accepted gap (lib.rs lines 162-173):
`hold = gap - 3300` drives the `false` loop, then one `true` bit is pushed
unconditionally. -/
def gapBits (gap : Nat) : List Bool :=
  pulseFalseBits ((gap : Int) - 3300) ++ [true]

/-- State of the edge scan: `lastCounter` is the `last_counter` variable,
`bits` collects every bit fed to the accumulator (the `bin` string of
the source records the same sequence as characters). -/
structure ScanState where
  lastCounter : Nat
  bits : List Bool
deriving Repr, DecidableEq

/-- One iteration of the `while counter < avg_over_time.len()` scan loop
(lib.rs lines 159-179) at position `counter` with envelope value `v`.
Note that `last_counter = counter` (line 175) runs whenever the value is
above the 0.05 threshold, whether or not the gap check passed. -/
def scanStep (st : ScanState) (counter : Nat) (v : ℚ) : ScanState :=
  if 1 / 20 < v then
    { lastCounter := counter,
      bits :=
        if 10 < counter - st.lastCounter then
          st.bits ++ gapBits (counter - st.lastCounter)
        else
          st.bits }
  else
    st

/-- The whole edge scan over a rectified envelope. -/
def edgeScan (env : List ℚ) : ScanState :=
  env.enum.foldl (fun st p => scanStep st p.1 p.2) { lastCounter := 0, bits := [] }

/-! ### The moving-average stage of a decode job (lib.rs lines 117-138) -/

/-- The two vectors of the averaging loop: `to_avg` is the sliding
buffer, `avg_over_time` the envelope built so far. -/
structure AvgState where
  to_avg : List ℚ
  avg_over_time : List ℚ
deriving Repr, DecidableEq

/-- One iteration of `for x in 0..arr.len() - 1` (lib.rs lines 123-138),
already specialised to the amplitude `a` of sample `x`: push `a`, then if
`x > 1000` sum the buffer with each element scaled by 300, append
`sum / 1000` to the envelope, and remove the oldest buffer element. -/
def avgStep (st : AvgState) (x : Nat) (a : ℚ) : AvgState :=
  let pushed := st.to_avg ++ [a]
  if 1000 < x then
    { to_avg := pushed.drop 1,
      avg_over_time :=
        st.avg_over_time ++ [(pushed.map (fun y => 300 * y)).sum / 1000] }
  else
    { st with to_avg := pushed }

/-- Run the averaging loop from index `x` over the remaining amplitudes. -/
def avgLoop (st : AvgState) (x : Nat) : List ℚ → AvgState
  | [] => st
  | a :: rest => avgLoop (avgStep st x a) (x + 1) rest

/-- Modelled from the spec: the external `dsp::amplitude` function
(`sample -> scalar magnitude`, spec §6) is not under `src/`; it is kept
abstract as a parameter `amp`.  The amplitude trace actually computed by
the loop `for x in 0..arr.len() - 1` (lib.rs line 123) is `amp` applied
to every sample of the block except the last one. -/
def ampTrace {α : Type} (amp : α → ℚ) (arr : List α) : List ℚ :=
  (arr.take (arr.length - 1)).map amp

/-- The envelope produced by a decode job for a block `arr`, before
mean-centering: the averaging loop run over the amplitude trace. -/
def decodeEnvelope {α : Type} (amp : α → ℚ) (arr : List α) : List ℚ :=
  (avgLoop { to_avg := [], avg_over_time := [] } 0 (ampTrace amp arr)).avg_over_time

/-- Closed form of the envelope: one value per index `k` up to
`amps.length - 1001`, each the scaled sum of the 1002-element window
`amps[k .. k+1001]` divided by 1000. -/
def specEnv (amps : List ℚ) : List ℚ :=
  (List.range (amps.length - 1001)).map
    fun k => (((amps.drop k).take 1002).map (fun y => 300 * y)).sum / 1000

/-! ### `RadioWriter::write` (lib.rs lines 244-256) -/

/-- Constant `MAX_BYTES` (lib.rs line 85). -/
def MAX_BYTES : Nat := 127

/-- Rust `RadioWriter::write`.  `queueOpen` models whether the transmit thread
(the receiving end of the byte channel) is still alive.  The result is
`none` when the `assert!(data.len() <= MAX_BYTES)` fails (the call
panics and nothing is enqueued); otherwise `some (ok, enqueued)` where
`ok` is `true` for `Ok(())` and `enqueued` lists the bytes placed on the
queue in order.  On a closed queue the very first `send` (the header)
fails and nothing is enqueued. -/
def RadioWriter.write (queueOpen : Bool) (data : List Nat) :
    Option (Bool × List Nat) :=
  if data.length ≤ MAX_BYTES then
    if queueOpen then
      some (true, (((data.length % 256) <<< 1) % 256 ||| 1) :: data)
    else
      some (false, [])
  else
    none

/-! ### `RadioReader::read` (lib.rs lines 190-198) -/

/-- Outcome of one `read()` call. -/
inductive ReadResult where
  | frame (v : List Nat)
  | noneAvail
  | panicked
deriving Repr, DecidableEq

/-- Rust `RadioReader::read`: a non-blocking `try_recv` on the output channel,
modelled by the queued frames plus a flag saying whether some sender is
still alive.  `Ok` maps to `frame`, `Empty` to `noneAvail` (`None`), and
`Disconnected` to `panicked` (`panic!("Receive channel disconnected!")`). -/
def RadioReader.read (queue : List (List Nat)) (senderAlive : Bool) : ReadResult :=
  match queue with
  | v :: _ => .frame v
  | [] => if senderAlive then .noneAvail else .panicked

/-! ## Theorems -/

/-- C1 (counterexample): feeding exactly the 32 bits of the four bytes
`[7, 0x41, 0x42, 0x43]` (each byte LSB first) into a fresh accumulator
emits *no* frame at all — the completed fourth byte is still sitting in
the partial-byte buffer (`current_byte = 0x43`, `current_byte_idx = 8`)
because `accumulate_bit` only flushes a full byte at the start of the
*next* call — and the state is not back to awaiting-header
(`data_len = 3`).  This refutes the claimed round trip. -/
theorem roundtrip_32bits_no_emission :
    (feedBits (ByteAccumulator.new true) (bytesToBits [7, 65, 66, 67])).1.sent = [] ∧
    ([] : List (List Nat)) ≠ [[65, 66, 67]] ∧
    (feedBits (ByteAccumulator.new true) (bytesToBits [7, 65, 66, 67])).1.data_len = 3 ∧
    (feedBits (ByteAccumulator.new true) (bytesToBits [7, 65, 66, 67])).1.current_byte = 67 ∧
    (feedBits (ByteAccumulator.new true) (bytesToBits [7, 65, 66, 67])).1.current_byte_idx = 8 :=
  ⟨by decide, by decide, by decide, by decide, by decide⟩

/-- C1 (amended): feeding the 32 bits of `[7, 0x41, 0x42, 0x43]` followed
by one further bit (of either value) into a fresh accumulator yields
exactly one emitted frame equal to `[0x41, 0x42, 0x43]`, and afterwards
the frame-assembly state is awaiting-header: expected length 0 and empty
payload buffer.  (After exactly the 32 bits nothing has been emitted yet;
the final byte is flushed lazily by the next `accumulate_bit` call.) -/
theorem roundtrip_emits_on_next_bit (b : Bool) :
    (feedBits (ByteAccumulator.new true) (bytesToBits [7, 65, 66, 67] ++ [b])).1.sent
        = [[65, 66, 67]] ∧
    (feedBits (ByteAccumulator.new true) (bytesToBits [7, 65, 66, 67] ++ [b])).1.data_len = 0 ∧
    (feedBits (ByteAccumulator.new true) (bytesToBits [7, 65, 66, 67] ++ [b])).1.accum = [] := by
  cases b
  · exact ⟨by decide, by decide, by decide⟩
  · exact ⟨by decide, by decide, by decide⟩

/-- C1 (witness for the amended theorem): the flushing bit taken as
`false`. -/
theorem roundtrip_emits_on_next_bit_witness :
    (feedBits (ByteAccumulator.new true) (bytesToBits [7, 65, 66, 67] ++ [false])).1.sent
        = [[65, 66, 67]] ∧
    (feedBits (ByteAccumulator.new true)
        (bytesToBits [7, 65, 66, 67] ++ [false])).1.data_len = 0 ∧
    (feedBits (ByteAccumulator.new true)
        (bytesToBits [7, 65, 66, 67] ++ [false])).1.accum = [] :=
  roundtrip_emits_on_next_bit false

/-- C2 (counterexample): after the zero-length header byte `1`, subsequent
bytes are *not* all reinterpreted as headers, and frames *can* still be
emitted: feeding `[1, 2, 99]` to a fresh accumulator emits the frame
`[99]` (byte `2` is read as a header of length 1 and byte `99` is consumed
as payload, not as a header). -/
theorem zero_header_then_frame_emitted :
    (feedBytes (ByteAccumulator.new true) [1, 2, 99]).1.sent = [[99]] ∧
    [[99]] ≠ ([] : List (List Nat)) :=
  ⟨by decide, by decide⟩

/-- C2 (amended): feeding a header byte whose top 7 bits are 0 to an
accumulator in the awaiting-header state leaves the whole state unchanged
(expected length stays 0, nothing is emitted), so the *immediately
following* byte is again interpreted as a header; in particular any
sequence consisting only of such zero-length headers never causes a frame
emission.  (Arbitrary subsequent bytes can still form valid frames, as
the counterexample shows.) -/
theorem zero_length_header_state_unchanged (s : ByteAccumulator)
    (h : s.data_len = 0) :
    (∀ b : Nat, b >>> 1 = 0 → s.accumulate_byte b = (s, true)) ∧
    (∀ bs : List Nat, (∀ b ∈ bs, b >>> 1 = 0) → feedBytes s bs = (s, true)) := by
  have single : ∀ b : Nat, b >>> 1 = 0 → s.accumulate_byte b = (s, true) := by
    intro b hb
    unfold ByteAccumulator.accumulate_byte
    rw [if_pos h, hb]
    cases s
    simp_all
  refine ⟨single, ?_⟩
  intro bs hbs
  induction bs with
  | nil => rfl
  | cons b rest ih =>
      have hb : b >>> 1 = 0 := hbs b (List.mem_cons_self b rest)
      have hrest : ∀ x ∈ rest, x >>> 1 = 0 := fun x hx => hbs x (List.mem_cons_of_mem b hx)
      calc feedBytes s (b :: rest)
          = feedBytes s rest := by rw [feedBytes, single b hb]
        _ = (s, true) := ih hrest

/-- C2 (witness for the amended theorem): a fresh open accumulator fed the
three zero-length headers `[0, 1, 1]` ends exactly where it started. -/
theorem zero_length_header_state_unchanged_witness :
    feedBytes (ByteAccumulator.new true) [0, 1, 1] = (ByteAccumulator.new true, true) :=
  (zero_length_header_state_unchanged (ByteAccumulator.new true) rfl).2
    [0, 1, 1] (by decide)

/-- C5 (counterexample): the at-rest partial bit count can be 8: feeding 8
bits into a fresh accumulator leaves `current_byte_idx = 8` between calls,
because the full byte is only flushed at the start of the *next*
`accumulate_bit` call. -/
theorem idx_eight_at_rest_reachable :
    (feedBits (ByteAccumulator.new true) (List.replicate 8 true)).1.current_byte_idx = 8 := by
  decide

/-- Helper: `accumulate_byte` never touches the partial-byte fields. -/
lemma accumulate_byte_partial_fields (s : ByteAccumulator) (b : Nat) :
    (s.accumulate_byte b).1.current_byte_idx = s.current_byte_idx ∧
    (s.accumulate_byte b).1.current_byte = s.current_byte := by
  simp only [ByteAccumulator.accumulate_byte]
  split
  · exact ⟨rfl, rfl⟩
  · split
    · split
      · exact ⟨rfl, rfl⟩
      · exact ⟨rfl, rfl⟩
    · exact ⟨rfl, rfl⟩

/-- Helper: `accumulate_bit` with fewer than 8 banked bits just places the
bit at the next free position. -/
lemma accumulate_bit_of_ne (s : ByteAccumulator) (bit : Bool)
    (h8 : s.current_byte_idx ≠ 8) :
    s.accumulate_bit bit =
      ({ s with
          current_byte := s.current_byte ||| ((cond bit 1 0) <<< s.current_byte_idx),
          current_byte_idx := s.current_byte_idx + 1 }, true) := by
  unfold ByteAccumulator.accumulate_bit
  rw [if_neg h8]

/-- Helper: `accumulate_bit` with 8 banked bits and a successful flush
resets the partial byte and places the bit at position 0. -/
lemma accumulate_bit_flush_ok (s s1 : ByteAccumulator) (bit : Bool)
    (h8 : s.current_byte_idx = 8)
    (hb : s.accumulate_byte s.current_byte = (s1, true)) :
    s.accumulate_bit bit =
      ({ s1 with current_byte := cond bit 1 0, current_byte_idx := 1 }, true) := by
  unfold ByteAccumulator.accumulate_bit
  rw [if_pos h8, hb]
  simp [Nat.shiftLeft_zero]

/-- Helper: `accumulate_bit` with 8 banked bits and a failing flush
returns early without placing the bit. -/
lemma accumulate_bit_flush_err (s s1 : ByteAccumulator) (bit : Bool)
    (h8 : s.current_byte_idx = 8)
    (hb : s.accumulate_byte s.current_byte = (s1, false)) :
    s.accumulate_bit bit = (s1, false) := by
  unfold ByteAccumulator.accumulate_bit
  rw [if_pos h8, hb]

/-- Helper: one `accumulate_bit` call keeps the bit count at most 8. -/
lemma accumulate_bit_idx_le (s : ByteAccumulator) (bit : Bool)
    (h : s.current_byte_idx ≤ 8) :
    (s.accumulate_bit bit).1.current_byte_idx ≤ 8 := by
  by_cases h8 : s.current_byte_idx = 8
  · rcases hb : s.accumulate_byte s.current_byte with ⟨s1, ok⟩
    have hidx := (accumulate_byte_partial_fields s s.current_byte).1
    rw [hb] at hidx
    cases ok
    · rw [accumulate_bit_flush_err s s1 bit h8 hb]
      simp at hidx ⊢
      omega
    · rw [accumulate_bit_flush_ok s s1 bit h8 hb]
      simp
  · rw [accumulate_bit_of_ne s bit h8]
    simp
    omega

/-- Helper: any accumulator reached from one with bit count at most 8 by
feeding bits keeps the bit count at most 8. -/
lemma feedBits_idx_le (s : ByteAccumulator) (bits : List Bool)
    (h : s.current_byte_idx ≤ 8) :
    (feedBits s bits).1.current_byte_idx ≤ 8 := by
  induction bits generalizing s with
  | nil => exact h
  | cons b rest ih =>
      rw [feedBits]
      rcases hb : s.accumulate_bit b with ⟨s1, ok⟩
      have h1 : s1.current_byte_idx ≤ 8 := by
        have := accumulate_bit_idx_le s b h
        rw [hb] at this
        exact this
      cases ok
      · exact h1
      · exact ih s1 h1

/-- C5 (amended): the partial bit count of any accumulator reachable from
a fresh one by `accumulate_bit` calls is always in `[0, 8]` (the value 8
*is* reachable at rest), and whenever a call starts with the count at 8
and succeeds, the full byte is flushed before the new bit is accepted:
the new bit lands in a fresh byte (count 1, byte equal to just that
bit), so more than 8 bits are never packed into one byte. -/
theorem bit_count_le_eight :
    (∀ (op : Bool) (bits : List Bool),
        (feedBits (ByteAccumulator.new op) bits).1.current_byte_idx ≤ 8) ∧
    (∀ (s : ByteAccumulator) (bit : Bool), s.current_byte_idx = 8 →
        (s.accumulate_bit bit).2 = true →
        (s.accumulate_bit bit).1.current_byte_idx = 1 ∧
        (s.accumulate_bit bit).1.current_byte = cond bit 1 0) := by
  constructor
  · intro op bits
    exact feedBits_idx_le (ByteAccumulator.new op) bits (Nat.zero_le 8)
  · intro s bit h8 hok
    rcases hb : s.accumulate_byte s.current_byte with ⟨s1, ok⟩
    cases ok
    · rw [accumulate_bit_flush_err s s1 bit h8 hb] at hok
      simp at hok
    · rw [accumulate_bit_flush_ok s s1 bit h8 hb]
      exact ⟨rfl, rfl⟩

/-- C5 (witness for the amended theorem): an accumulator resting with 8
banked bits (here the pending header byte 7) accepts the next bit into a
fresh byte: the count becomes 1 and the byte holds just the new bit. -/
theorem bit_count_le_eight_witness :
    ((ByteAccumulator.mk 0 [] 7 8 [] true).accumulate_bit true).1.current_byte_idx = 1 ∧
    ((ByteAccumulator.mk 0 [] 7 8 [] true).accumulate_bit true).1.current_byte = cond true 1 0 :=
  bit_count_le_eight.2 (ByteAccumulator.mk 0 [] 7 8 [] true) true rfl (by decide)

/-- Invariant maintained by bit feeding: the expected length fits a header
(at most 127), the partial byte is a real `u8`, the bit count is at most
8, and every emitted frame has length between 1 and 127. -/
def GoodState (s : ByteAccumulator) : Prop :=
  s.data_len ≤ 127 ∧ s.current_byte < 256 ∧ s.current_byte_idx ≤ 8 ∧
  ∀ f ∈ s.sent, 1 ≤ f.length ∧ f.length ≤ 127

/-- Helper: `accumulate_byte` with a `u8` argument preserves the
invariant. -/
lemma accumulate_byte_good (s : ByteAccumulator) (b : Nat)
    (hs : GoodState s) (hb : b < 256) : GoodState (s.accumulate_byte b).1 := by
  obtain ⟨h1, h2, h3, h4⟩ := hs
  unfold GoodState
  simp only [ByteAccumulator.accumulate_byte]
  split
  · refine ⟨?_, h2, h3, h4⟩
    simp only [Nat.shiftRight_one]
    omega
  · rename_i hne
    split
    · rename_i hfull
      split
      · refine ⟨Nat.zero_le _, h2, h3, ?_⟩
        intro f hf
        simp only [List.mem_append, List.mem_singleton] at hf
        rcases hf with hf | hf
        · exact h4 f hf
        · subst hf
          simp only [List.length_append, List.length_cons, List.length_nil] at hfull ⊢
          omega
      · exact ⟨h1, h2, h3, h4⟩
    · exact ⟨h1, h2, h3, h4⟩

/-- Helper: `accumulate_bit` preserves the invariant. -/
lemma accumulate_bit_good (s : ByteAccumulator) (bit : Bool)
    (hs : GoodState s) : GoodState (s.accumulate_bit bit).1 := by
  by_cases h8 : s.current_byte_idx = 8
  · rcases hb : s.accumulate_byte s.current_byte with ⟨s1, ok⟩
    have hg1 : GoodState s1 := by
      have := accumulate_byte_good s s.current_byte hs hs.2.1
      rw [hb] at this
      exact this
    cases ok
    · rw [accumulate_bit_flush_err s s1 bit h8 hb]
      exact hg1
    · rw [accumulate_bit_flush_ok s s1 bit h8 hb]
      obtain ⟨g1, g2, g3, g4⟩ := hg1
      exact ⟨g1, by cases bit <;> simp, by simp, g4⟩
  · rw [accumulate_bit_of_ne s bit h8]
    obtain ⟨h1, h2, h3, h4⟩ := hs
    refine ⟨h1, ?_, by simp; omega, h4⟩
    have hpow : (2 : Nat) ^ s.current_byte_idx ≤ 2 ^ 7 :=
      Nat.pow_le_pow_right (by omega) (by omega)
    have hshift : (cond bit 1 0) <<< s.current_byte_idx < 256 := by
      rw [Nat.shiftLeft_eq]
      cases bit
      · simp
      · simp
        omega
    have h256 : (256 : Nat) = 2 ^ 8 := rfl
    rw [h256] at h2 hshift ⊢
    exact Nat.or_lt_two_pow h2 hshift

/-- Helper: feeding any bit list preserves the invariant. -/
lemma feedBits_good (s : ByteAccumulator) (bits : List Bool)
    (hs : GoodState s) : GoodState (feedBits s bits).1 := by
  induction bits generalizing s with
  | nil => exact hs
  | cons b rest ih =>
    rw [feedBits]
    rcases hb : s.accumulate_bit b with ⟨s1, ok⟩
    have h1 : GoodState s1 := by
      have := accumulate_bit_good s b hs
      rw [hb] at this
      exact this
    cases ok
    · exact h1
    · exact ih s1 h1

/-- C7: every frame emitted by an accumulator driven from fresh by
`accumulate_bit` has payload length in `1..=127`; the expected length is
decoded from the header byte as `byte >> 1`; and the byte that completes
the expected payload is emitted as a frame of exactly that length, after
which the accumulator is reset to awaiting-header (expected length 0,
empty payload buffer). -/
theorem frame_length_matches_header :
    (∀ (op : Bool) (bits : List Bool),
        ∀ f ∈ (feedBits (ByteAccumulator.new op) bits).1.sent,
          1 ≤ f.length ∧ f.length ≤ 127) ∧
    (∀ (s : ByteAccumulator) (b : Nat), s.data_len = 0 →
        (s.accumulate_byte b).1.data_len = b >>> 1) ∧
    (∀ (s : ByteAccumulator) (b : Nat), s.data_len ≠ 0 →
        s.accum.length + 1 = s.data_len → s.channelOpen = true →
        (s.accumulate_byte b).1.sent = s.sent ++ [s.accum ++ [b]] ∧
        (s.accum ++ [b]).length = s.data_len ∧
        (s.accumulate_byte b).1.data_len = 0 ∧
        (s.accumulate_byte b).1.accum = []) := by
  refine ⟨?_, ?_, ?_⟩
  · intro op bits f hf
    have hnew : GoodState (ByteAccumulator.new op) := by
      unfold GoodState ByteAccumulator.new
      simp
    exact (feedBits_good (ByteAccumulator.new op) bits hnew).2.2.2 f hf
  · intro s b h0
    simp [ByteAccumulator.accumulate_byte, h0]
  · intro s b hne hfill hopen
    simp only [ByteAccumulator.accumulate_byte, List.length_append, List.length_cons,
      List.length_nil]
    rw [if_neg hne, if_pos (by omega), if_pos hopen]
    refine ⟨rfl, ?_, rfl, rfl⟩
    omega

/-- C7 (witness): feeding the bits of header `3` (length 1) and payload
byte `9`, plus one flushing bit, emits the frame `[9]`, whose length is
within `1..=127`. -/
theorem frame_length_matches_header_witness :
    1 ≤ ([9] : List Nat).length ∧ ([9] : List Nat).length ≤ 127 :=
  frame_length_matches_header.1 true (bytesToBits [3, 9] ++ [false]) [9] (by decide)

/-- C9: `read()` is a non-blocking poll: the next queued frame when one is
available, `None` when the queue is open but empty, and a panic when the
queue is found disconnected; disconnection is never mapped to `None`. -/
theorem read_poll_semantics :
    (∀ (v : List Nat) (rest : List (List Nat)) (alive : Bool),
        RadioReader.read (v :: rest) alive = ReadResult.frame v) ∧
    RadioReader.read [] true = ReadResult.noneAvail ∧
    RadioReader.read [] false = ReadResult.panicked ∧
    (∀ queue : List (List Nat), RadioReader.read queue false ≠ ReadResult.noneAvail) := by
  refine ⟨fun v rest alive => rfl, rfl, rfl, fun queue => ?_⟩
  cases queue <;> simp [RadioReader.read]

/-- Helper: the averaging loop processes the last amplitude after all the
earlier ones, with its loop index equal to its position. -/
lemma avgLoop_append (st : AvgState) (x : Nat) (l : List ℚ) (a : ℚ) :
    avgLoop st x (l ++ [a]) = avgStep (avgLoop st x l) (x + l.length) a := by
  induction l generalizing st x with
  | nil => simp [avgLoop]
  | cons b rest ih =>
    have hx : x + 1 + rest.length = x + (b :: rest).length := by
      simp
      omega
    simp only [List.cons_append, avgLoop, List.append_eq]
    rw [ih, hx]

/-- Helper: a window that stays inside `amps` is unaffected by appending
one more amplitude. -/
lemma window_append_frozen (amps : List ℚ) (a : ℚ) (k : Nat)
    (h : k + 1002 ≤ amps.length) :
    ((amps ++ [a]).drop k).take 1002 = (amps.drop k).take 1002 := by
  rw [List.drop_append_of_le_length (by omega)]
  rw [List.take_append_of_le_length (by simp; omega)]

/-- Helper: full characterisation of the averaging loop run from the empty
state at index 0: the sliding buffer ends holding the last
`min 1001 amps.length` amplitudes, and the envelope built is exactly one
value per window position, each the scaled sum of a 1002-element window
divided by 1000. -/
lemma avgLoop_char (amps : List ℚ) :
    (avgLoop (AvgState.mk [] []) 0 amps).to_avg = amps.drop (amps.length - 1001) ∧
    (avgLoop (AvgState.mk [] []) 0 amps).avg_over_time = specEnv amps := by
  induction amps using List.reverseRecOn with
  | nil => exact ⟨rfl, rfl⟩
  | append_singleton amps a ih =>
    obtain ⟨h1, h2⟩ := ih
    rw [avgLoop_append]
    by_cases hp : 1000 < amps.length
    · constructor
      · simp only [avgStep, if_pos (show 1000 < 0 + amps.length by omega)]
        rw [h1, ← List.drop_append_of_le_length (show amps.length - 1001 ≤ amps.length by omega),
          List.drop_drop]
        congr 1
        simp
        omega
      · simp only [avgStep, if_pos (show 1000 < 0 + amps.length by omega)]
        rw [h1, h2]
        unfold specEnv
        have hr : (amps ++ [a]).length - 1001 = (amps.length - 1001) + 1 := by
          simp
          omega
        rw [hr, List.range_succ,
          List.map_append _ (List.range (amps.length - 1001)) [amps.length - 1001]]
        have hmap : List.map
            (fun k => ((((amps ++ [a]).drop k).take 1002).map (fun y => 300 * y)).sum / 1000)
            (List.range (amps.length - 1001))
            = List.map
            (fun k => (((amps.drop k).take 1002).map (fun y => 300 * y)).sum / 1000)
            (List.range (amps.length - 1001)) := by
          apply List.map_congr_left
          intro k hk
          rw [List.mem_range] at hk
          rw [window_append_frozen amps a k (by omega)]
        rw [hmap]
        have hwin : ((amps ++ [a]).drop (amps.length - 1001)).take 1002
            = amps.drop (amps.length - 1001) ++ [a] := by
          rw [List.drop_append_of_le_length (show amps.length - 1001 ≤ amps.length by omega)]
          apply List.take_of_length_le
          simp only [List.length_append, List.length_cons, List.length_nil, List.length_drop]
          omega
        simp only [List.map_cons, List.map_nil]
        rw [hwin]
    · have h0 : amps.length - 1001 = 0 := by omega
      have h0a : (amps ++ [a]).length - 1001 = 0 := by
        simp
        omega
      constructor
      · simp only [avgStep, if_neg (show ¬ 1000 < 0 + amps.length by omega)]
        rw [h1, h0, h0a, List.drop_zero, List.drop_zero]
      · simp only [avgStep, if_neg (show ¬ 1000 < 0 + amps.length by omega)]
        rw [h2]
        unfold specEnv
        rw [h0, h0a]
        simp

/-- C8 (counterexample): the amplitude trace does *not* contain one value
per sample of the captured block: the amplitude loop runs
`for x in 0..arr.len() - 1`, skipping the final sample, so a 2-sample
block produces an amplitude trace of length 1. -/
theorem amp_trace_skips_last_sample :
    (ampTrace id [(1 : ℚ), 2]).length = 1 ∧ (1 : Nat) ≠ 2 ∧
    ([(1 : ℚ), 2] : List ℚ).length = 2 :=
  ⟨rfl, by decide, rfl⟩

/-- C8 (amended): the amplitude trace contains one amplitude value per
sample of the captured block *except the last* (`n - 1` values for an
`n`-sample block), and each envelope value appended is the sum of the
*1002* most recent amplitude values — the buffer is pushed before the
`x > 1000` test and popped only afterwards — each scaled by the gain
factor 300, divided by 1000, with one envelope value appended per loop
index `x` from 1001 on. -/
theorem envelope_window_1002 :
    (∀ (α : Type) (amp : α → ℚ) (arr : List α),
        (ampTrace amp arr).length = arr.length - 1) ∧
    (∀ amps : List ℚ,
        (avgLoop (AvgState.mk [] []) 0 amps).avg_over_time = specEnv amps) ∧
    (∀ (α : Type) (amp : α → ℚ) (arr : List α),
        decodeEnvelope amp arr = specEnv (ampTrace amp arr)) := by
  refine ⟨?_, fun amps => (avgLoop_char amps).2,
    fun α amp arr => (avgLoop_char (ampTrace amp arr)).2⟩
  intro α amp arr
  simp [ampTrace]

/-- C9 (witness): an empty queue with the senders gone does not read as
`None`. -/
theorem read_poll_semantics_witness :
    RadioReader.read [] false ≠ ReadResult.noneAvail :=
  read_poll_semantics.2.2.2 []

/-- C8 (witness): a concrete 2-sample block: its amplitude trace has one
value, its block length minus one. -/
theorem envelope_window_1002_witness :
    (ampTrace id [(1 : ℚ), 2]).length = ([(1 : ℚ), 2] : List ℚ).length - 1 :=
  envelope_window_1002.1 ℚ id [(1 : ℚ), 2]

/-- C10: with the downstream channel closed, `accumulate_byte` on the byte
that completes the expected payload returns an error and the state is
*not* rolled back: the completing byte stays appended to the payload
buffer, `data_len` keeps its non-zero value, and nothing is emitted. -/
theorem closed_channel_no_rollback (s : ByteAccumulator) (b : Nat)
    (hclosed : s.channelOpen = false) (hlen : s.data_len ≠ 0)
    (hfill : s.accum.length + 1 = s.data_len) :
    s.accumulate_byte b = ({ s with accum := s.accum ++ [b] }, false) := by
  unfold ByteAccumulator.accumulate_byte
  rw [if_neg hlen]
  simp only [List.length_append, List.length_cons, List.length_nil]
  rw [if_pos (by omega), if_neg (by simp [hclosed])]

/-- Helper: the header arithmetic of `write`: for payloads within the
`MAX_BYTES` bound the `u8` casts cannot truncate and the `| 1` just sets
the low bit, so the header byte is `2 * length + 1`. -/
lemma header_byte_eq (n : Nat) (h : n ≤ 127) :
    ((n % 256) <<< 1) % 256 ||| 1 = 2 * n + 1 := by
  have hall : ∀ m : Nat, m < 128 → ((m % 256) <<< 1) % 256 ||| 1 = 2 * m + 1 := by decide
  exact hall n (by omega)

/-- C4: `write` with a payload of at most 127 bytes on an open queue
returns `Ok` and enqueues the header byte `(length << 1) | 1` followed by
every payload byte in order — header `255` for a 127-byte payload — while
`write` with 128 or more bytes trips the assertion (the call panics,
modelled as `none`) and enqueues nothing. -/
theorem write_header_then_payload :
    (∀ data : List Nat, data.length ≤ 127 →
        RadioWriter.write true data = some (true, (2 * data.length + 1) :: data)) ∧
    RadioWriter.write true (List.replicate 127 0)
      = some (true, 255 :: List.replicate 127 0) ∧
    (∀ (q : Bool) (data : List Nat), 128 ≤ data.length →
        RadioWriter.write q data = none) := by
  have hok : ∀ data : List Nat, data.length ≤ 127 →
      RadioWriter.write true data = some (true, (2 * data.length + 1) :: data) := by
    intro data h
    unfold RadioWriter.write
    rw [if_pos (by simpa [MAX_BYTES] using h), if_pos rfl, header_byte_eq data.length h]
  refine ⟨hok, ?_, ?_⟩
  · have h127 : (List.replicate 127 (0 : Nat)).length ≤ 127 := by simp
    rw [hok (List.replicate 127 0) h127]
    norm_num
  · intro q data h
    unfold RadioWriter.write
    rw [if_neg (by simp [MAX_BYTES]; omega)]

/-- C4 (witness): a one-byte payload `[5]` gets header `3 = (1 << 1) | 1`
then the byte. -/
theorem write_header_then_payload_witness :
    RadioWriter.write true [5] = some (true, [3, 5]) :=
  write_header_then_payload.1 [5] (by decide)

/-- Helper: every bit the gap loop emits is `false`. -/
lemma pulseFalseBitsAux_all_false (fuel : Nat) (hold : Int) :
    pulseFalseBitsAux fuel hold
      = List.replicate (pulseFalseBitsAux fuel hold).length false := by
  induction fuel generalizing hold with
  | zero => rfl
  | succ n ih =>
    rw [pulseFalseBitsAux]
    split
    · rw [List.length_cons, List.replicate_succ]
      exact congrArg (List.cons false) (ih (hold - 3300))
    · rfl

/-- C3: for every gap accepted by the minimum-gap check the emitted bit
block is the decode of the gap: starting from `gap - 3300`, a run of
`false` bits (one per loop iteration while the value stays positive)
followed by one unconditional `true`; the run consists of `false` bits
only, a gap of 50 decodes to `[true]`, and a gap of 6700 decodes to
`[false, false, true]`. -/
theorem gap_decode_bits :
    (∀ (st : ScanState) (counter : Nat) (v : ℚ), 1 / 20 < v →
        10 < counter - st.lastCounter →
        (scanStep st counter v).bits =
          st.bits ++ (pulseFalseBits (((counter - st.lastCounter : Nat) : Int) - 3300) ++ [true])) ∧
    (∀ hold : Int, pulseFalseBits hold = List.replicate (pulseFalseBits hold).length false) ∧
    gapBits 50 = [true] ∧
    gapBits 6700 = [false, false, true] := by
  refine ⟨?_, fun hold => pulseFalseBitsAux_all_false _ _, by decide, by decide⟩
  intro st counter v hv hgap
  unfold scanStep
  rw [if_pos hv]
  simp only [if_pos hgap]
  rfl

/-- C3 (witness): a gap of 20 (from last edge 0 to edge 20, above
threshold with value 1) appends its decoded bits to the empty stream. -/
theorem gap_decode_bits_witness :
    (scanStep (ScanState.mk 0 []) 20 1).bits
      = [] ++ (pulseFalseBits (((20 - 0 : Nat) : Int) - 3300) ++ [true]) :=
  gap_decode_bits.1 (ScanState.mk 0 []) 20 1 (by norm_num) (by decide)

/-- C6 (counterexample): an above-threshold value whose distance from the
previous marked edge is at most 10 *is* re-marked as the last edge: on the
envelope `[0,0,0,0,0,1]` the edge at index 5 (distance 5 from the initial
last-edge index 0) emits no bits but the stored last-edge index ends at 5,
not at the unchanged 0 the claim asserts. -/
theorem close_edge_remarks_last_edge :
    edgeScan [0, 0, 0, 0, 0, 1] = ScanState.mk 5 [] ∧ (5 : Nat) ≠ 0 := by
  constructor
  · norm_num [edgeScan, List.enum, List.enumFrom, scanStep]
  · decide

/-- C6 (amended): an above-threshold value at distance at most 10 from the
previously marked edge emits no bits — it contributes nothing to the bit
stream — but it is *not* ignored for edge book-keeping: `last_counter` is
re-marked to its index (the assignment sits outside the gap check), so
the next gap is measured from this close edge. -/
theorem close_edge_no_bits_but_remarked (st : ScanState) (counter : Nat) (v : ℚ)
    (hv : 1 / 20 < v) (hclose : counter - st.lastCounter ≤ 10) :
    scanStep st counter v = ScanState.mk counter st.bits := by
  unfold scanStep
  rw [if_pos hv, if_neg (by omega)]

/-- C6 (witness for the amended theorem): the close edge of the
counterexample envelope: index 5, value 1, previous edge 0. -/
theorem close_edge_no_bits_but_remarked_witness :
    scanStep (ScanState.mk 0 []) 5 1 = ScanState.mk 5 [] :=
  close_edge_no_bits_but_remarked (ScanState.mk 0 []) 5 1 (by norm_num) (by decide)

/-- C10 (witness): an accumulator expecting one payload byte whose channel
is closed: feeding byte 9 errors out with the byte retained and the
expected length still 1. -/
theorem closed_channel_no_rollback_witness :
    (ByteAccumulator.mk 1 [] 0 0 [] false).accumulate_byte 9
      = (ByteAccumulator.mk 1 [9] 0 0 [] false, false) :=
  closed_channel_no_rollback (ByteAccumulator.mk 1 [] 0 0 [] false) 9 rfl
    (by decide) (by decide)

end Radio
